import Mathlib

/-!
Verification development for the report-script repository (src/main.go).

The program is a single linear extraction-and-aggregation pass over an HTML
document: `generateReport` walks the element children of the report container
(`td.comment-body`), dispatching on node kind (h2 heading vs ul list), keeps
four global counters (`issueOpen`, `issueClose`, `prOpen`, `prClose`), an
ordered `headers` slice, a `headerContentDict` map from header name to
formatted entry strings, and a `userDict` map from user handle to profile URL,
and finally prints a stats block, the per-section entries, and the user
reference links.

We embed the HTML structure the code inspects as a small node tree, the
goquery selection operations the code uses as list functions, and the
traversal as explicit state passing.  Go runtime panics (nil dereference in
the sibling walks, index out of range on `Nodes[0]` and on
`headers[len(headers)-1]`) are modelled as `Except` errors.
-/

set_option autoImplicit false

namespace ReportScript

/-- An HTML node as the code observes it: an element with a tag, attributes
and children, or a text node carrying character data.  (`x/net/html` node
kinds other than elements and text do not influence the traversal.) -/
inductive HNode where
  | elem (tag : String) (attrs : List (String × String)) (children : List HNode)
  | text (data : String)

/-- Children of a node in document order (text node: none). -/
def hchildren : HNode → List HNode
  | .elem _ _ cs => cs
  | .text _ => []

/-- Is the node an element node? -/
def isElem : HNode → Bool
  | .elem _ _ _ => true
  | .text _ => false

/-- First-match association-list lookup (Go html attribute lookup and the
map reads in the code). -/
def alookup {α : Type} : List (String × α) → String → Option α
  | [], _ => none
  | (k, v) :: rest, key => if k = key then some v else alookup rest key

/-- Attribute of an element node by key (text nodes carry no attributes). -/
def attrOf : HNode → String → Option String
  | .elem _ attrs _, key => alookup attrs key
  | .text _, _ => none

/-- Matching of a class selector word against a class attribute value:
the value is split at whitespace and the word must occur among the fields. -/
def splitWordsAux : List Char → List Char → List (List Char)
  | [], acc => [acc.reverse]
  | c :: rest, acc =>
    if c.isWhitespace then acc.reverse :: splitWordsAux rest []
    else splitWordsAux rest (c :: acc)

/-- Does the class attribute value contain the given class word? -/
def hasClassWord (val word : String) : Bool :=
  (splitWordsAux val.data []).any (fun w => w = word.data)

/-- Does the element match tag `t` and (when given) class `cls`
(the cascadia selectors "h2", "ul", "li", "a", "a.user-mention")? -/
def matchesSel (t : String) (cls : Option String) : HNode → Bool
  | .elem tg attrs _ =>
    tg = t && (match cls with
      | none => true
      | some c => (match alookup attrs "class" with
        | some v => hasClassWord v c
        | none => false))
  | .text _ => false

/-- `s.Is(t)` on a node. -/
def isTag (n : HNode) (t : String) : Bool := matchesSel t none n

/-- goquery `ChildrenFiltered`: element children of `n` matching the selector. -/
def childrenFiltered (n : HNode) (t : String) (cls : Option String) : List HNode :=
  (hchildren n).filter (matchesSel t cls)

/-- goquery `Children`: element children of `n`. -/
def elemChildren (n : HNode) : List HNode :=
  (hchildren n).filter isElem

-- Recursive text content of a node (goquery `Text` descends into children);
-- `nodesText` is the concatenation over a list of nodes, hence over a
-- selection.
mutual
/-- Text content of one node. -/
def nodeText : HNode → String
  | .text d => d
  | .elem _ _ cs => nodesText cs
/-- Concatenated text content of a list of nodes. -/
def nodesText : List HNode → String
  | [] => ""
  | c :: cs => nodeText c ++ nodesText cs
end

/-- goquery `Attr` on a selection: the attribute of the first matched node;
`none` when the selection is empty or the attribute is absent. -/
def selAttr (sel : List HNode) (key : String) : Option String :=
  match sel with
  | [] => none
  | n :: _ => attrOf n key

/-- The sibling walk of src/main.go lines 136-139 and 158-161: start at the
first child and advance through siblings until a text node is found, then
take its `Data`.  The walk dereferences a nil pointer (modelled as `none`)
when the node has no children or no direct text-node child. -/
def firstDirectText : List HNode → Option String
  | [] => none
  | .text d :: _ => some d
  | .elem _ _ _ :: rest => firstDirectText rest

/-- Go runtime failures the traversal can hit, plus the `log.Fatal` aborts
used by the I/O shell of `generateReport` (never produced by the traversal
itself). -/
inductive RunErr where
  | panicNilDeref
  | panicIndexOutOfRange
  | fatal (msg : String)
  deriving DecidableEq, Repr

/-- The mutable state of `generateReport`: the four global counters
(src/main.go line 22) and the three collections (lines 97-106). -/
structure ExtractState where
  issueOpen : Nat
  issueClose : Nat
  prOpen : Nat
  prClose : Nat
  userDict : List (String × String)
  headers : List String
  headerContentDict : List (String × List String)
  deriving DecidableEq, Repr

/-- All counters zero, all collections empty (Go zero values). -/
def initState : ExtractState :=
  { issueOpen := 0, issueClose := 0, prOpen := 0, prClose := 0,
    userDict := [], headers := [], headerContentDict := [] }

/-- communityPrefix used to combine the url with repo name (line 18). -/
def communityPrefix : String := "https://github.com/beyondstorage/"

/-- Substring containment over character lists, modelling
`regexp.MatchString` for the purely literal alternation patterns of
lines 25-28. -/
def isPrefixL : List Char → List Char → Bool
  | [], _ => true
  | _ :: _, [] => false
  | a :: as, b :: bs => a = b && isPrefixL as bs

/-- Does `pat` occur as a contiguous substring of `s`? -/
def isInfixL (pat : List Char) : List Char → Bool
  | [] => isPrefixL pat []
  | c :: rest => isPrefixL pat (c :: rest) || isInfixL pat rest

/-- `containsSubstr s pat`: `pat` occurs inside `s`. -/
def containsSubstr (s pat : String) : Bool := isInfixL pat.data s.data

/-- regexp "merged pull request|closed pull request" (line 25). -/
def regClosePR (s : String) : Bool :=
  containsSubstr s "merged pull request" || containsSubstr s "closed pull request"

/-- regexp "opened pull request" (line 26). -/
def regOpenPR (s : String) : Bool := containsSubstr s "opened pull request"

/-- regexp "opened issue" (line 27). -/
def regOpenIssue (s : String) : Bool := containsSubstr s "opened issue"

/-- regexp "closed issue" (line 28). -/
def regCloseIssue (s : String) : Bool := containsSubstr s "closed issue"

/-- `count` (lines 215-226): ordered switch, first match wins; the Go
globals become explicit state. -/
def count (content : String) (st : ExtractState) : ExtractState :=
  if regOpenPR content then { st with prOpen := st.prOpen + 1 }
  else if regClosePR content then { st with prClose := st.prClose + 1 }
  else if regOpenIssue content then { st with issueOpen := st.issueOpen + 1 }
  else if regCloseIssue content then { st with issueClose := st.issueClose + 1 }
  else st

/-- `isBot` (lines 230-237): exact match against the two robot handles. -/
def isBot (name : String) : Bool :=
  name = "@dependabot" || name = "@BeyondRobot"

/-- Go map write `m[k] = v`: replace the binding if the key exists,
otherwise add it. -/
def setEntry {α : Type} : List (String × α) → String → α → List (String × α)
  | [], k, v => [(k, v)]
  | (k', v') :: rest, k, v =>
    if k' = k then (k, v) :: rest else (k', v') :: setEntry rest k v

/-- Go map read `m[k]` for the `[]string`-valued map: absent keys read as
the zero value (empty list). -/
def lookupD (d : List (String × List String)) (k : String) : List String :=
  (alookup d k).getD []

/-- The user-mention selection of a list item
(`liNode.ChildrenFiltered("a.user-mention")`, line 128). -/
def userSel (li : HNode) : List HNode :=
  childrenFiltered li "a" (some "user-mention")

/-- The handle text of a list item (`userNode.Text()`). -/
def liHandle (li : HNode) : String := nodesText (userSel li)

/-- The issue/PR anchor selection of a list item
(`liNode.Children().ChildrenFiltered("a")`, line 155): anchors one level
inside the element children of the item. -/
def issueSel (li : HNode) : List HNode :=
  (elemChildren li).flatMap (fun c => childrenFiltered c "a" none)

/-- The `fmt.Sprintf("[%s]%s[%s](%s)", ...)` entry string (line 172). -/
def mkEntry (handle userText issueTitle issueLink : String) : String :=
  "[" ++ handle ++ "]" ++ userText ++ "[" ++ issueTitle ++ "](" ++ issueLink ++ ")"

/-- Lines 141-149: when the handle is not yet in `userDict`, read the
user-mention href; missing href logs and skips the item (`none`),
otherwise the binding is added. -/
def registerUser (handle : String) (sel : List HNode) (st : ExtractState) :
    Option ExtractState :=
  if (alookup st.userDict handle).isSome then some st
  else
    match selAttr sel "href" with
    | some link => some { st with userDict := st.userDict ++ [(handle, link)] }
    | none => none

/-- Lines 126-174: processing of one `li` node.  The Go control flow
becomes: the bot check, the user-text sibling walk (nil-dereference panic
when it fails), the `userDict` registration (skip on missing href), the
counter update, the issue anchor location (`Nodes[0]` panics on an empty
selection, then the sibling walk), the issue href (skip on missing), and
finally the append to the current header, where `headers[len(headers)-1]`
panics when no header exists yet. -/
def processLi (li : HNode) (st : ExtractState) : Except RunErr ExtractState :=
  if isBot (liHandle li) then .ok st
  else
    match firstDirectText (hchildren li) with
    | none => .error .panicNilDeref
    | some userText =>
      match registerUser (liHandle li) (userSel li) st with
      | none => .ok st
      | some st1 =>
        let st2 := count userText st1
        match issueSel li with
        | [] => .error .panicIndexOutOfRange
        | issueFirst :: _ =>
          match firstDirectText (hchildren issueFirst) with
          | none => .error .panicNilDeref
          | some issueTitle =>
            match selAttr (issueSel li) "href" with
            | none => .ok st2
            | some issueLink =>
              match st2.headers.getLast? with
              | none => .error .panicIndexOutOfRange
              | some cur =>
                let entry := mkEntry (liHandle li) userText issueTitle issueLink
                let newList := lookupD st2.headerContentDict cur ++ [entry]
                .ok { st2 with
                      headerContentDict := setEntry st2.headerContentDict cur newList }

/-- Sequential processing with Go panic propagation: a panic aborts the
whole traversal. -/
def foldE {α : Type} (f : α → ExtractState → Except RunErr ExtractState) :
    List α → ExtractState → Except RunErr ExtractState
  | [], st => .ok st
  | x :: xs, st =>
    match f x st with
    | .ok st' => foldE f xs st'
    | .error e => .error e

/-- The `li` items of a `ul` node (`s.ChildrenFiltered("li")`, line 126). -/
def liItems (ul : HNode) : List HNode := childrenFiltered ul "li" none

/-- Lines 109-176: handling of one child of the container.  An `h2` child
appends its anchor-selection text to `headers` (unconditionally) and resets
that name's entry list; a `ul` child processes its items; anything else is
ignored. -/
def processChild (c : HNode) (st : ExtractState) : Except RunErr ExtractState :=
  if isTag c "h2" then
    let name := nodesText (childrenFiltered c "a" none)
    .ok { st with headers := st.headers ++ [name],
                  headerContentDict := setEntry st.headerContentDict name [] }
  else if isTag c "ul" then
    foldE processLi (liItems c) st
  else .ok st

/-- The whole extraction pass of `generateReport` over the children of the
`td.comment-body` container, from the zeroed global state. -/
def extractReport (children : List HNode) : Except RunErr ExtractState :=
  foldE processChild children initState

/-- The fixed-shape statistics block (lines 180-187), one string per output
line; the leading empty string models the leading newline of the format
string. -/
def statsLines (st : ExtractState) : List String :=
  ["",
   "## Weekly Stats",
   "",
   "| | Opened this week | Closed this week |",
   "| ---- | ---- | ---- |",
   "| Issues | " ++ toString st.issueOpen ++ " | " ++ toString st.issueClose ++ " |",
   "| PR\u0027s | " ++ toString st.prOpen ++ " | " ++ toString st.prClose ++ " |"]

/-- The heading line printed for a section (line 198). -/
def headingLine (name : String) : String :=
  "## [" ++ name ++ "](" ++ communityPrefix ++ name ++ ")"

/-- The section loop (lines 192-205): for each header in order, skip it when
its entry list is empty, otherwise print the heading line, a blank line, one
line per entry, and a closing blank line. -/
def formatSections (headers : List String) (dict : List (String × List String)) :
    List String :=
  match headers with
  | [] => []
  | h :: rest =>
    if (lookupD dict h).length = 0 then formatSections rest dict
    else (headingLine h :: "" :: (lookupD dict h).map (fun c => "- " ++ c) ++ [""]) ++
      formatSections rest dict

/-- The user reference-link block (lines 210-212), one line per `userDict`
binding.  Go iterates the map in unspecified order; we model insertion
order, and state only order-insensitive facts about these lines. -/
def userLines (dict : List (String × String)) : List String :=
  dict.map (fun p => "[" ++ p.1 ++ "]: " ++ p.2)

/-- The whole of `generateReport` after I/O setup: extraction followed by
the printing of the stats block, a blank line, the sections, a blank line,
and the user links.  On a panic nothing is printed, because all printing
happens after the traversal completes. -/
def generateReport (children : List HNode) : Except RunErr (List String) :=
  match extractReport children with
  | .error e => .error e
  | .ok st =>
    .ok (statsLines st ++ [""] ++
      formatSections st.headers st.headerContentDict ++ [""] ++
      userLines st.userDict)

/-- The error of a run result, if any. -/
def errOf : Except RunErr ExtractState → Option RunErr
  | .error e => some e
  | .ok _ => none

/-- The final state of a successful run (`initState` on error; used only to
state facts about concrete successful runs). -/
def stOf : Except RunErr ExtractState → ExtractState
  | .ok st => st
  | .error _ => initState

/-! ### Derived notions used to state the claims -/

/-- The sum of the four counters. -/
def sumCounters (st : ExtractState) : Nat :=
  st.issueOpen + st.issueClose + st.prOpen + st.prClose

/-- Does the action text match at least one of the four classification
patterns? -/
def matchesAny (t : String) : Bool :=
  regOpenPR t || regClosePR t || regOpenIssue t || regCloseIssue t

/-- 1 when the list item is non-bot and its action text (the first direct
text run) matches a classification pattern, otherwise 0. -/
def liMatchCount (li : HNode) : Nat :=
  if isBot (liHandle li) then 0
  else
    match firstDirectText (hchildren li) with
    | some t => if matchesAny t then 1 else 0
    | none => 0

/-- A list item is fully extractable: it is a bot item (skipped before any
extraction), or all five extraction steps succeed on it. -/
def liWF (li : HNode) : Bool :=
  isBot (liHandle li) ||
  ((firstDirectText (hchildren li)).isSome &&
   (selAttr (userSel li) "href").isSome &&
   (match issueSel li with
    | [] => false
    | a :: _ => (firstDirectText (hchildren a)).isSome) &&
   (selAttr (issueSel li) "href").isSome)

/-- No list with a non-bot item occurs before the first heading. -/
def headedOK : List HNode → Bool
  | [] => true
  | c :: rest =>
    if isTag c "h2" then true
    else if isTag c "ul" then
      (liItems c).all (fun li => isBot (liHandle li)) && headedOK rest
    else headedOK rest

/-- A well-formed document: every list item is fully extractable and no
non-bot list item precedes the first heading. -/
def docWF (children : List HNode) : Bool :=
  children.all (fun c => !(isTag c "ul") || (liItems c).all liWF) && headedOK children

/-- Number of non-bot, pattern-matching list items of one list node. -/
def ulMatchCount (c : HNode) : Nat := ((liItems c).map liMatchCount).sum

/-- Number of non-bot list items in the document whose action text matches
at least one classification pattern. -/
def docMatchCount (children : List HNode) : Nat :=
  (children.map (fun c => if isTag c "ul" then ulMatchCount c else 0)).sum

/-- The section output as the spec words it: for each section in order with
a non-empty entry list (skipping empty ones), a heading line, a blank line,
one line per entry, and a blank line. -/
def specFormatSections (headers : List String) (dict : List (String × List String)) :
    List String :=
  (headers.filter (fun h => !(lookupD dict h).isEmpty)).flatMap
    (fun h => headingLine h :: "" :: (lookupD dict h).map (fun c => "- " ++ c) ++ [""])

/-- An entry string was built by `mkEntry` from a handle present in the
user dictionary. -/
def entryOK (ud : List (String × String)) (e : String) : Prop :=
  ∃ handle userText issueTitle issueLink,
    e = mkEntry handle userText issueTitle issueLink ∧
    (alookup ud handle).isSome

/-- Every entry of every section list is an `mkEntry` of a registered
handle. -/
def invC7 (st : ExtractState) : Prop :=
  ∀ hdr, ∀ e ∈ lookupD st.headerContentDict hdr, entryOK st.userDict e

/-! ### Concrete documents used for witnesses and counterexamples -/

/-- A fully extractable list item: @alice opened issue Bug X. -/
def aliceLi : HNode :=
  .elem "li" [] [
    .elem "a" [("class", "user-mention"), ("href", "https://github.com/alice")]
      [.text "@alice"],
    .text " opened issue ",
    .elem "p" []
      [.elem "a" [("href", "https://github.com/beyondstorage/go-storage/issues/1")]
        [.text "Bug X"]]]

/-- A fully extractable list item: @bob closed issue Bug Y. -/
def bobLi : HNode :=
  .elem "li" [] [
    .elem "a" [("class", "user-mention"), ("href", "https://github.com/bob")]
      [.text "@bob"],
    .text " closed issue ",
    .elem "p" []
      [.elem "a" [("href", "https://github.com/beyondstorage/go-storage/issues/2")]
        [.text "Bug Y"]]]

/-- A list item authored by the dependabot robot. -/
def depLi : HNode :=
  .elem "li" [] [
    .elem "a" [("class", "user-mention"), ("href", "https://github.com/dependabot")]
      [.text "@dependabot"],
    .text " opened pull request ",
    .elem "p" []
      [.elem "a" [("href", "https://github.com/beyondstorage/go-storage/pull/9")]
        [.text "Bump dep"]]]

/-- The go-storage heading node. -/
def gsH2 : HNode :=
  .elem "h2" []
    [.elem "a" [("href", "https://github.com/beyondstorage/go-storage")]
      [.text "go-storage"]]

/-- A heading node with no anchor child. -/
def emptyH2 : HNode := .elem "h2" [] [.text "plain heading"]

/-- A list item with no direct text-node child: the sibling walk for the
action text runs off a nil pointer. -/
def noTextLi : HNode :=
  .elem "li" [] [
    .elem "a" [("class", "user-mention"), ("href", "https://github.com/alice")]
      [.text "@alice"]]

/-- A non-bot list item whose child containers hold no anchor: the issue
selection is empty, so `Nodes[0]` is out of range. -/
def noAnchorLi : HNode :=
  .elem "li" [] [
    .elem "a" [("class", "user-mention"), ("href", "https://github.com/alice")]
      [.text "@alice"],
    .text " opened issue ",
    .elem "p" [] [.text "no link here"]]

/-- A list item whose issue anchor carries no href attribute. -/
def noHrefIssueLi : HNode :=
  .elem "li" [] [
    .elem "a" [("class", "user-mention"), ("href", "https://github.com/alice")]
      [.text "@alice"],
    .text " opened issue ",
    .elem "p" [] [.elem "a" [] [.text "Bug X"]]]

/-- One heading, one list with one extractable item (spec Scenario A). -/
def doc1 : List HNode := [gsH2, .elem "ul" [] [aliceLi]]

/-- The go-storage heading occurring twice, with one item under each
occurrence. -/
def c1doc : List HNode :=
  [gsH2, .elem "ul" [] [aliceLi], gsH2, .elem "ul" [] [bobLi]]

/-- A heading with no anchor child, followed by a list with one item. -/
def c2doc : List HNode := [emptyH2, .elem "ul" [] [aliceLi]]

/-- A list with one extractable non-bot item before any heading. -/
def c3doc : List HNode := [.elem "ul" [] [aliceLi]]

/-- A heading followed by a list whose item has no direct text child. -/
def c10aDoc : List HNode := [gsH2, .elem "ul" [] [noTextLi]]

/-- A heading followed by a list whose item has no nested anchor. -/
def c10bDoc : List HNode := [gsH2, .elem "ul" [] [noAnchorLi]]

/-! ### Helper lemmas -/

theorem alookup_append {α : Type} (l l2 : List (String × α)) (k : String) :
    alookup (l ++ l2) k =
      (match alookup l k with
       | some v => some v
       | none => alookup l2 k) := by
  induction l with
  | nil => simp [alookup]
  | cons p rest ih =>
    obtain ⟨k', v'⟩ := p
    by_cases h : k' = k <;> simp [alookup, h, ih]

theorem alookup_mono {α : Type} (l l2 : List (String × α)) (k : String) (v : α)
    (h : alookup l k = some v) : alookup (l ++ l2) k = some v := by
  rw [alookup_append, h]

theorem alookup_append_single {α : Type} (l : List (String × α)) (k : String) (v : α)
    (h : alookup l k = none) : alookup (l ++ [(k, v)]) k = some v := by
  rw [alookup_append, h]
  simp [alookup]

theorem alookup_mem {α : Type} (l : List (String × α)) (k : String) (v : α)
    (h : alookup l k = some v) : (k, v) ∈ l := by
  induction l with
  | nil => simp [alookup] at h
  | cons p rest ih =>
    obtain ⟨k', v'⟩ := p
    by_cases hk : k' = k
    · subst hk
      simp [alookup] at h
      simp [h]
    · simp [alookup, hk] at h
      exact List.mem_cons_of_mem _ (ih h)

theorem alookup_setEntry {α : Type} (d : List (String × α)) (k k' : String) (v : α) :
    alookup (setEntry d k v) k' = if k' = k then some v else alookup d k' := by
  induction d with
  | nil =>
    by_cases h : k' = k
    · subst h
      simp [setEntry, alookup]
    · have h2 : ¬(k = k') := fun hh => h hh.symm
      simp [setEntry, alookup, h, h2]
  | cons p rest ih =>
    obtain ⟨k0, v0⟩ := p
    by_cases h0 : k0 = k
    · subst h0
      by_cases h : k' = k0
      · subst h
        simp [setEntry, alookup]
      · have h2 : ¬(k0 = k') := fun hh => h hh.symm
        simp [setEntry, alookup, h, h2]
    · by_cases h1 : k0 = k'
      · subst h1
        simp [setEntry, alookup, h0]
      · simp [setEntry, alookup, h0, h1, ih]

theorem lookupD_setEntry (d : List (String × List String)) (k k' : String)
    (v : List String) :
    lookupD (setEntry d k v) k' = if k' = k then v else lookupD d k' := by
  unfold lookupD
  rw [alookup_setEntry]
  by_cases h : k' = k <;> simp [h]

/-- `count` touches only the counters. -/
theorem count_collections (t : String) (st : ExtractState) :
    (count t st).userDict = st.userDict ∧
    (count t st).headers = st.headers ∧
    (count t st).headerContentDict = st.headerContentDict := by
  unfold count
  cases h1 : regOpenPR t <;> cases h2 : regClosePR t <;>
    cases h3 : regOpenIssue t <;> cases h4 : regCloseIssue t <;> simp

/-- `count` adds exactly the match indicator to the counter sum. -/
theorem count_sum (t : String) (st : ExtractState) :
    sumCounters (count t st) = sumCounters st + (if matchesAny t then 1 else 0) := by
  unfold count matchesAny sumCounters
  cases h1 : regOpenPR t <;> cases h2 : regClosePR t <;>
    cases h3 : regOpenIssue t <;> cases h4 : regCloseIssue t <;> simp <;> omega

/-- What a successful `registerUser` guarantees: only `userDict` may change,
the handle is registered afterwards, and existing bindings survive. -/
theorem registerUser_spec (handle : String) (sel : List HNode) (st st1 : ExtractState)
    (h : registerUser handle sel st = some st1) :
    st1.issueOpen = st.issueOpen ∧ st1.issueClose = st.issueClose ∧
    st1.prOpen = st.prOpen ∧ st1.prClose = st.prClose ∧
    st1.headers = st.headers ∧ st1.headerContentDict = st.headerContentDict ∧
    (alookup st1.userDict handle).isSome ∧
    (∀ k v, alookup st.userDict k = some v → alookup st1.userDict k = some v) := by
  unfold registerUser at h
  by_cases hs : (alookup st.userDict handle).isSome
  · rw [if_pos hs] at h
    cases h
    exact ⟨rfl, rfl, rfl, rfl, rfl, rfl, hs, fun k v hv => hv⟩
  · rw [if_neg hs] at h
    cases hsel : selAttr sel "href" with
    | none => rw [hsel] at h; cases h
    | some link =>
      rw [hsel] at h
      cases h
      refine ⟨rfl, rfl, rfl, rfl, rfl, rfl, ?_, ?_⟩
      · have hnone : alookup st.userDict handle = none := by
          cases hl : alookup st.userDict handle with
          | none => rfl
          | some v => rw [hl] at hs; simp at hs
        simp [alookup_append_single _ _ _ hnone]
      · intro k v hv
        exact alookup_mono _ _ _ _ hv

/-- `registerUser` keeps the counter sum. -/
theorem registerUser_sum (handle : String) (sel : List HNode) (st st1 : ExtractState)
    (h : registerUser handle sel st = some st1) :
    sumCounters st1 = sumCounters st := by
  obtain ⟨h1, h2, h3, h4, -, -, -, -⟩ := registerUser_spec handle sel st st1 h
  unfold sumCounters
  rw [h1, h2, h3, h4]

/-- A user-mention href makes `registerUser` succeed. -/
theorem registerUser_isSome (handle : String) (sel : List HNode) (st : ExtractState)
    (h : (selAttr sel "href").isSome) :
    ∃ st1, registerUser handle sel st = some st1 := by
  unfold registerUser
  by_cases hs : (alookup st.userDict handle).isSome
  · exact ⟨st, by rw [if_pos hs]⟩
  · rw [if_neg hs]
    cases hsel : selAttr sel "href" with
    | none => rw [hsel] at h; simp at h
    | some link => exact ⟨_, rfl⟩

/-- A bot item is skipped without touching the state (lines 131-133). -/
theorem processLi_isBot (li : HNode) (st : ExtractState)
    (h : isBot (liHandle li) = true) : processLi li st = .ok st := by
  unfold processLi
  rw [h]
  rfl

theorem exists_getLast {α : Type} (l : List α) (h : l ≠ []) :
    ∃ x, l.getLast? = some x := by
  cases l with
  | nil => exact absurd rfl h
  | cons a as => exact ⟨_, List.getLast?_eq_getLast _ (by simp)⟩

/-- A fully extractable non-bot item under an open section: `processLi`
succeeds, adds the match indicator to the counter sum, and leaves the
headers unchanged. -/
theorem processLi_wf (li : HNode) (st : ExtractState)
    (hwf : liWF li = true) (hhd : st.headers ≠ []) :
    ∃ st', processLi li st = .ok st' ∧
      sumCounters st' = sumCounters st + liMatchCount li ∧
      st'.headers = st.headers := by
  cases hbot : isBot (liHandle li) with
  | true =>
    refine ⟨st, processLi_isBot li st hbot, ?_, rfl⟩
    unfold liMatchCount
    rw [hbot]
    simp
  | false =>
    unfold liWF at hwf
    rw [hbot] at hwf
    simp only [Bool.false_or, Bool.and_eq_true] at hwf
    obtain ⟨⟨⟨ht, hhref⟩, hisel⟩, hlk⟩ := hwf
    obtain ⟨t, ht'⟩ := Option.isSome_iff_exists.mp ht
    obtain ⟨st1, hreg⟩ := registerUser_isSome (liHandle li) (userSel li) st hhref
    obtain ⟨-, -, -, -, hh1, -, -, -⟩ := registerUser_spec _ _ _ _ hreg
    cases hsel : issueSel li with
    | nil => rw [hsel] at hisel; simp at hisel
    | cons a arest =>
      rw [hsel] at hisel hlk
      obtain ⟨t2, ht2⟩ := Option.isSome_iff_exists.mp hisel
      obtain ⟨lk, hlk'⟩ := Option.isSome_iff_exists.mp hlk
      have hh2 : (count t st1).headers = st.headers := by
        rw [(count_collections t st1).2.1, hh1]
      obtain ⟨cur, hcur⟩ := exists_getLast (count t st1).headers (by rw [hh2]; exact hhd)
      refine ⟨{ count t st1 with
                headerContentDict := setEntry (count t st1).headerContentDict cur
                  (lookupD (count t st1).headerContentDict cur ++
                    [mkEntry (liHandle li) t t2 lk]) }, ?_, ?_, ?_⟩
      · simp only [processLi, hbot, ht', hreg, hsel, ht2, hlk', hcur]
        rfl
      · show sumCounters (count t st1) = sumCounters st + liMatchCount li
        rw [count_sum, registerUser_sum _ _ _ _ hreg]
        unfold liMatchCount
        rw [hbot, ht']
        simp
      · show (count t st1).headers = st.headers
        exact hh2

/-- Every item an identified bot: the whole list fold leaves the state
unchanged. -/
theorem foldE_bots (items : List HNode) (st : ExtractState)
    (h : ∀ li ∈ items, isBot (liHandle li) = true) :
    foldE processLi items st = .ok st := by
  induction items with
  | nil => rfl
  | cons li rest ih =>
    unfold foldE
    rw [processLi_isBot li st (h li (List.mem_cons_self li rest))]
    exact ih (fun x hx => h x (List.mem_cons_of_mem li hx))

/-- Bot items contribute nothing to the match count. -/
theorem botsMatchCount (items : List HNode)
    (h : ∀ li ∈ items, isBot (liHandle li) = true) :
    (items.map liMatchCount).sum = 0 := by
  induction items with
  | nil => rfl
  | cons li rest ih =>
    simp only [List.map_cons, List.sum_cons]
    rw [ih (fun x hx => h x (List.mem_cons_of_mem li hx))]
    unfold liMatchCount
    rw [h li (List.mem_cons_self li rest)]
    simp

/-- Fully extractable items under an open section: the list fold succeeds
and adds the list's match count to the counter sum. -/
theorem foldE_wf (items : List HNode) (st : ExtractState)
    (hwf : ∀ li ∈ items, liWF li = true) (hhd : st.headers ≠ []) :
    ∃ st', foldE processLi items st = .ok st' ∧
      sumCounters st' = sumCounters st + (items.map liMatchCount).sum ∧
      st'.headers = st.headers := by
  induction items generalizing st with
  | nil => exact ⟨st, rfl, by simp, rfl⟩
  | cons li rest ih =>
    obtain ⟨st1, hli, hsum1, hhd1⟩ :=
      processLi_wf li st (hwf li (List.mem_cons_self li rest)) hhd
    obtain ⟨st2, hrest, hsum2, hhd2⟩ :=
      ih st1 (fun x hx => hwf x (List.mem_cons_of_mem li hx)) (by rw [hhd1]; exact hhd)
    refine ⟨st2, ?_, ?_, ?_⟩
    · unfold foldE
      rw [hli]
      exact hrest
    · simp only [List.map_cons, List.sum_cons]
      rw [hsum2, hsum1]
      omega
    · rw [hhd2, hhd1]

theorem isTag_ne (c : HNode) (t t' : String) (ht : isTag c t = true) (hne : t ≠ t') :
    isTag c t' = false := by
  cases c with
  | text d => rfl
  | elem tg attrs cs =>
    simp only [isTag, matchesSel, Bool.and_true, decide_eq_true_eq] at ht
    simp only [isTag, matchesSel, Bool.and_true, decide_eq_false_iff_not]
    subst ht
    exact fun hh => hne hh

theorem isTag_false_of_ne (c : HNode) (t : String) (h : isTag c t ≠ true) :
    isTag c t = false := by
  cases hh : isTag c t with
  | true => exact absurd hh h
  | false => rfl

theorem docMatchCount_cons (c : HNode) (rest : List HNode) :
    docMatchCount (c :: rest) =
      (if isTag c "ul" then ulMatchCount c else 0) + docMatchCount rest := by
  simp [docMatchCount]

theorem headedOK_cons (c : HNode) (rest : List HNode) :
    headedOK (c :: rest) =
      if isTag c "h2" then true
      else if isTag c "ul" then
        (liItems c).all (fun li => isBot (liHandle li)) && headedOK rest
      else headedOK rest := rfl

/-- Main induction for the counter-sum property: processing from any state
whose headers are already open (or whose remaining document has no non-bot
item before its first heading) succeeds on a well-formed suffix and adds
exactly the match count. -/
theorem extract_counts (children : List HNode) : ∀ st : ExtractState,
    children.all (fun c => !(isTag c "ul") || (liItems c).all liWF) = true →
    (st.headers ≠ [] ∨ headedOK children = true) →
    ∃ st', foldE processChild children st = .ok st' ∧
      sumCounters st' = sumCounters st + docMatchCount children := by
  induction children with
  | nil =>
    intro st _ _
    exact ⟨st, rfl, by simp [docMatchCount]⟩
  | cons c rest ih =>
    intro st hall hinv
    rw [List.all_cons, Bool.and_eq_true] at hall
    obtain ⟨hc, hrest⟩ := hall
    by_cases hh2 : isTag c "h2" = true
    · have hul : isTag c "ul" = false := isTag_ne c "h2" "ul" hh2 (by decide)
      have hstep : processChild c st =
          .ok { st with
                headers := st.headers ++ [nodesText (childrenFiltered c "a" none)],
                headerContentDict :=
                  setEntry st.headerContentDict (nodesText (childrenFiltered c "a" none)) [] } := by
        unfold processChild
        rw [hh2]
        rfl
      obtain ⟨st', h1, h2⟩ := ih
        { st with
          headers := st.headers ++ [nodesText (childrenFiltered c "a" none)],
          headerContentDict :=
            setEntry st.headerContentDict (nodesText (childrenFiltered c "a" none)) [] }
        hrest (Or.inl (by simp))
      refine ⟨st', ?_, ?_⟩
      · unfold foldE
        rw [hstep]
        exact h1
      · rw [docMatchCount_cons, hul]
        simp only [Bool.false_eq_true, if_false]
        rw [h2]
        show sumCounters st + docMatchCount rest = sumCounters st + (0 + docMatchCount rest)
        omega
    · have hh2' : isTag c "h2" = false := isTag_false_of_ne c "h2" hh2
      by_cases hul : isTag c "ul" = true
      · have hstep : processChild c st = foldE processLi (liItems c) st := by
          unfold processChild
          rw [hh2', hul]
          rfl
        rw [hul] at hc
        simp only [Bool.not_true, Bool.false_or] at hc
        cases hhd : st.headers with
        | cons hx hxs =>
          obtain ⟨st1, hfold, hsum, hhds⟩ := foldE_wf (liItems c) st
            (fun li hli => List.all_eq_true.mp hc li hli) (by rw [hhd]; simp)
          obtain ⟨st', h1, h2⟩ := ih st1 hrest (Or.inl (by rw [hhds, hhd]; simp))
          refine ⟨st', ?_, ?_⟩
          · unfold foldE
            rw [hstep, hfold]
            exact h1
          · rw [docMatchCount_cons, hul, if_pos rfl, h2, hsum]
            unfold ulMatchCount
            omega
        | nil =>
          have hok : headedOK (c :: rest) = true := by
            cases hinv with
            | inl hne => exact absurd hhd hne
            | inr hok => exact hok
          rw [headedOK_cons, hh2', hul] at hok
          simp only [Bool.false_eq_true, if_false, eq_self_iff_true, if_true,
            Bool.and_eq_true] at hok
          obtain ⟨hbots, hokrest⟩ := hok
          have hbots' : ∀ li ∈ liItems c, isBot (liHandle li) = true :=
            fun li hli => List.all_eq_true.mp hbots li hli
          obtain ⟨st', h1, h2⟩ := ih st hrest (Or.inr hokrest)
          refine ⟨st', ?_, ?_⟩
          · unfold foldE
            rw [hstep, foldE_bots _ _ hbots']
            exact h1
          · rw [docMatchCount_cons, hul, if_pos rfl, h2]
            unfold ulMatchCount
            rw [botsMatchCount _ hbots']
            omega
      · have hul' : isTag c "ul" = false := isTag_false_of_ne c "ul" hul
        have hstep : processChild c st = .ok st := by
          unfold processChild
          rw [hh2', hul']
          rfl
        have hinv' : st.headers ≠ [] ∨ headedOK rest = true := by
          cases hinv with
          | inl hne => exact Or.inl hne
          | inr hok =>
            rw [headedOK_cons, hh2', hul'] at hok
            simp only [Bool.false_eq_true, if_false] at hok
            exact Or.inr hok
        obtain ⟨st', h1, h2⟩ := ih st hrest hinv'
        refine ⟨st', ?_, ?_⟩
        · unfold foldE
          rw [hstep]
          exact h1
        · rw [docMatchCount_cons, hul']
          simp only [Bool.false_eq_true, if_false]
          rw [h2]
          omega

theorem entryOK_mono (ud ud' : List (String × String)) (e : String)
    (hmono : ∀ k v, alookup ud k = some v → alookup ud' k = some v)
    (h : entryOK ud e) : entryOK ud' e := by
  obtain ⟨h1, a, b, c, he, hs⟩ := h
  obtain ⟨v, hv⟩ := Option.isSome_iff_exists.mp hs
  exact ⟨h1, a, b, c, he, by rw [hmono _ _ hv]; rfl⟩

/-- Complete case analysis of a successful `processLi`: the item was
skipped with the state unchanged, or the counter was updated and the item
then skipped at the issue-href step, or a full entry was appended. -/
theorem processLi_cases (li : HNode) (st st' : ExtractState)
    (h : processLi li st = .ok st') :
    st' = st ∨
    ∃ t st1, registerUser (liHandle li) (userSel li) st = some st1 ∧
      firstDirectText (hchildren li) = some t ∧
      (st' = count t st1 ∨
       ∃ t2 lk cur,
         selAttr (issueSel li) "href" = some lk ∧
         (count t st1).headers.getLast? = some cur ∧
         st' = { count t st1 with
                 headerContentDict := setEntry (count t st1).headerContentDict cur
                   (lookupD (count t st1).headerContentDict cur ++
                     [mkEntry (liHandle li) t t2 lk]) }) := by
  cases hbot : isBot (liHandle li) with
  | true =>
    rw [processLi_isBot li st hbot] at h
    cases h
    exact Or.inl rfl
  | false =>
    cases ht : firstDirectText (hchildren li) with
    | none =>
      have hstep : processLi li st = .error .panicNilDeref := by
        simp only [processLi, hbot, ht]
        rfl
      rw [hstep] at h
      cases h
    | some t =>
      cases hreg : registerUser (liHandle li) (userSel li) st with
      | none =>
        have hstep : processLi li st = .ok st := by
          simp only [processLi, hbot, ht, hreg]
          rfl
        rw [hstep] at h
        cases h
        exact Or.inl rfl
      | some st1 =>
        cases hsel : issueSel li with
        | nil =>
          have hstep : processLi li st = .error .panicIndexOutOfRange := by
            simp only [processLi, hbot, ht, hreg, hsel]
            rfl
          rw [hstep] at h
          cases h
        | cons a arest =>
          cases ht2 : firstDirectText (hchildren a) with
          | none =>
            have hstep : processLi li st = .error .panicNilDeref := by
              simp only [processLi, hbot, ht, hreg, hsel, ht2]
              rfl
            rw [hstep] at h
            cases h
          | some t2 =>
            cases hlk : selAttr (issueSel li) "href" with
            | none =>
              have hlk2 : selAttr (a :: arest) "href" = none := by
                rw [← hsel]
                exact hlk
              have hstep : processLi li st = .ok (count t st1) := by
                simp only [processLi, hbot, ht, hreg, hsel, ht2, hlk2]
                rfl
              rw [hstep] at h
              cases h
              exact Or.inr ⟨t, st1, rfl, rfl, Or.inl rfl⟩
            | some lk =>
              have hlk2 : selAttr (a :: arest) "href" = some lk := by
                rw [← hsel]
                exact hlk
              cases hcur : (count t st1).headers.getLast? with
              | none =>
                have hstep : processLi li st = .error .panicIndexOutOfRange := by
                  simp only [processLi, hbot, ht, hreg, hsel, ht2, hlk2, hcur]
                  rfl
                rw [hstep] at h
                cases h
              | some cur =>
                have hstep : processLi li st =
                    .ok { count t st1 with
                          headerContentDict := setEntry (count t st1).headerContentDict cur
                            (lookupD (count t st1).headerContentDict cur ++
                              [mkEntry (liHandle li) t t2 lk]) } := by
                  simp only [processLi, hbot, ht, hreg, hsel, ht2, hlk2, hcur]
                  rfl
                rw [hstep] at h
                cases h
                exact Or.inr ⟨t, st1, rfl, rfl, Or.inr ⟨t2, lk, cur, hlk2, hcur, rfl⟩⟩

/-- `processLi` preserves the registered-handle invariant. -/
theorem processLi_invC7 (li : HNode) (st st' : ExtractState)
    (h : processLi li st = .ok st') (hinv : invC7 st) : invC7 st' := by
  rcases processLi_cases li st st' h with rfl | ⟨t, st1, hreg, ht, hrest⟩
  · exact hinv
  · obtain ⟨-, -, -, -, -, hcd1, hhandle, hmono⟩ := registerUser_spec _ _ _ _ hreg
    have hucount := (count_collections t st1).1
    have hdcount := (count_collections t st1).2.2
    rcases hrest with rfl | ⟨t2, lk, cur, hlk, hcur, rfl⟩
    · intro hdr e he
      rw [hdcount, hcd1] at he
      refine entryOK_mono st.userDict _ e ?_ (hinv hdr e he)
      intro k v hv
      rw [hucount]
      exact hmono k v hv
    · intro hdr e he
      have hud : ({ count t st1 with
          headerContentDict := setEntry (count t st1).headerContentDict cur
            (lookupD (count t st1).headerContentDict cur ++
              [mkEntry (liHandle li) t t2 lk]) } : ExtractState).userDict =
          st1.userDict := hucount
      have hmono' : ∀ k v, alookup st.userDict k = some v →
          alookup (count t st1).userDict k = some v := by
        intro k v hv
        rw [hucount]
        exact hmono k v hv
      show entryOK (count t st1).userDict e
      have he' : e ∈ lookupD (setEntry (count t st1).headerContentDict cur
          (lookupD (count t st1).headerContentDict cur ++
            [mkEntry (liHandle li) t t2 lk])) hdr := he
      rw [lookupD_setEntry] at he'
      by_cases hc : hdr = cur
      · subst hc
        rw [if_pos rfl] at he'
        rw [hdcount, hcd1] at he'
        rcases List.mem_append.mp he' with hold | hnew
        · exact entryOK_mono st.userDict _ e hmono' (hinv _ e hold)
        · rw [List.mem_singleton] at hnew
          subst hnew
          refine ⟨liHandle li, t, t2, lk, rfl, ?_⟩
        -- handle registered in st1, and count keeps userDict
          rw [hucount]
          exact hhandle
      · rw [if_neg hc] at he'
        rw [hdcount, hcd1] at he'
        exact entryOK_mono st.userDict _ e hmono' (hinv hdr e he')

/-- A state predicate preserved by each step is preserved by the fold. -/
theorem foldE_pres {α : Type} (f : α → ExtractState → Except RunErr ExtractState)
    (P : ExtractState → Prop)
    (hf : ∀ x st st', f x st = .ok st' → P st → P st') :
    ∀ (xs : List α) (st st' : ExtractState),
      foldE f xs st = .ok st' → P st → P st' := by
  intro xs
  induction xs with
  | nil =>
    intro st st' h hP
    cases h
    exact hP
  | cons x rest ih =>
    intro st st' h hP
    unfold foldE at h
    cases hx : f x st with
    | error e => rw [hx] at h; cases h
    | ok st1 =>
      rw [hx] at h
      exact ih st1 st' h (hf x st st1 hx hP)

/-- `processChild` preserves the registered-handle invariant. -/
theorem processChild_invC7 (c : HNode) (st st' : ExtractState)
    (h : processChild c st = .ok st') (hinv : invC7 st) : invC7 st' := by
  unfold processChild at h
  by_cases hh2 : isTag c "h2" = true
  · rw [if_pos hh2] at h
    cases h
    intro hdr e he
    have he' : e ∈ lookupD (setEntry st.headerContentDict
        (nodesText (childrenFiltered c "a" none)) []) hdr := he
    rw [lookupD_setEntry] at he'
    by_cases hc : hdr = nodesText (childrenFiltered c "a" none)
    · rw [if_pos hc] at he'
      cases he'
    · rw [if_neg hc] at he'
      exact hinv hdr e he'
  · rw [if_neg hh2] at h
    by_cases hul : isTag c "ul" = true
    · rw [if_pos hul] at h
      exact foldE_pres processLi invC7 processLi_invC7 (liItems c) st st' h hinv
    · rw [if_neg hul] at h
      cases h
      exact hinv

/-- A successful extraction satisfies the registered-handle invariant. -/
theorem extract_invC7 (children : List HNode) (st : ExtractState)
    (h : extractReport children = .ok st) : invC7 st := by
  have hbase : invC7 initState := by
    intro hdr e he
    simp [initState, lookupD, alookup] at he
  exact foldE_pres processChild invC7 processChild_invC7 children initState st h hbase

theorem foldE_others (pre : List HNode) (st : ExtractState)
    (hpre : ∀ c ∈ pre, isTag c "h2" = false ∧ isTag c "ul" = false) :
    foldE processChild pre st = .ok st := by
  induction pre generalizing st with
  | nil => rfl
  | cons c rest ih =>
    obtain ⟨h2, hul⟩ := hpre c (List.mem_cons_self c rest)
    have hstep : processChild c st = .ok st := by
      unfold processChild
      rw [h2, hul]
      rfl
    unfold foldE
    rw [hstep]
    exact ih st (fun x hx => hpre x (List.mem_cons_of_mem c hx))

theorem foldE_append_ok {α : Type} (f : α → ExtractState → Except RunErr ExtractState)
    (xs ys : List α) (st st1 : ExtractState) (h : foldE f xs st = .ok st1) :
    foldE f (xs ++ ys) st = foldE f ys st1 := by
  induction xs generalizing st with
  | nil =>
    cases h
    rfl
  | cons x rest ih =>
    unfold foldE at h
    cases hx : f x st with
    | error e => rw [hx] at h; cases h
    | ok st2 =>
      rw [hx] at h
      rw [List.cons_append]
      have heq : foldE f (x :: (rest ++ ys)) st =
          (match f x st with
           | .ok st' => foldE f (rest ++ ys) st'
           | .error e => .error e) := rfl
      rw [heq, hx]
      exact ih st2 h

/-- A fully extractable non-bot item processed while no heading is open:
the `headers[len(headers)-1]` access is an index-out-of-range panic. -/
theorem processLi_headers_nil (li : HNode) (st : ExtractState) (t t2 lk : String)
    (a : HNode) (arest : List HNode)
    (hhd : st.headers = [])
    (hnb : isBot (liHandle li) = false)
    (ht : firstDirectText (hchildren li) = some t)
    (hhref : (selAttr (userSel li) "href").isSome)
    (hisel : issueSel li = a :: arest)
    (ht2 : firstDirectText (hchildren a) = some t2)
    (hlk : selAttr (issueSel li) "href" = some lk) :
    processLi li st = .error RunErr.panicIndexOutOfRange := by
  obtain ⟨st1, hreg⟩ := registerUser_isSome (liHandle li) (userSel li) st hhref
  have hh1 := (registerUser_spec _ _ _ _ hreg).2.2.2.2.1
  have hcur : (count t st1).headers.getLast? = none := by
    rw [(count_collections t st1).2.1, hh1, hhd]
    rfl
  have hlk2 : selAttr (a :: arest) "href" = some lk := by
    rw [← hisel]
    exact hlk
  simp only [processLi, hnb, ht, hreg, hisel, ht2, hlk2, hcur]
  rfl

theorem specFormatSections_cons (h : String) (rest : List String)
    (dict : List (String × List String)) :
    specFormatSections (h :: rest) dict =
      (if (lookupD dict h).isEmpty then []
       else headingLine h :: "" :: (lookupD dict h).map (fun c => "- " ++ c) ++ [""]) ++
      specFormatSections rest dict := by
  unfold specFormatSections
  cases he : (lookupD dict h).isEmpty with
  | true => simp [List.filter_cons, he]
  | false => simp [List.filter_cons, he]

/-! ### The claims -/

/-- C1, counterexample: in a document where the heading "go-storage" appears
twice, extraction succeeds with the heading duplicated in the ordered
section list, and the formatted output contains the "go-storage" heading
line twice — refuting "created only the first time, never duplicated, at
most one heading line per section name". -/
theorem C1_counterexample :
    errOf (extractReport c1doc) = none ∧
    (stOf (extractReport c1doc)).headers = ["go-storage", "go-storage"] ∧
    (formatSections (stOf (extractReport c1doc)).headers
      (stOf (extractReport c1doc)).headerContentDict).count
        (headingLine "go-storage") = 2 := by
  refine ⟨rfl, rfl, ?_⟩
  decide

/-- C1, amended: a heading whose name already occurs in the ordered section
list is appended to it again (so the name now occurs at least twice) and its
entry list is reset to empty, discarding entries collected earlier. -/
theorem C1_repeated_heading (c : HNode) (st : ExtractState) (name : String)
    (hh2 : isTag c "h2" = true)
    (hname : nodesText (childrenFiltered c "a" none) = name)
    (hdup : name ∈ st.headers) :
    ∃ stN, processChild c st = .ok stN ∧
      stN.headers = st.headers ++ [name] ∧
      stN.headerContentDict = setEntry st.headerContentDict name [] ∧
      2 ≤ stN.headers.count name := by
  have hstep : processChild c st =
      .ok { st with
            headers := st.headers ++ [name],
            headerContentDict := setEntry st.headerContentDict name [] } := by
    unfold processChild
    rw [hh2, hname]
    rfl
  refine ⟨_, hstep, rfl, rfl, ?_⟩
  show 2 ≤ (st.headers ++ [name]).count name
  rw [List.count_append]
  have h1 : 0 < st.headers.count name := List.count_pos_iff.mpr hdup
  have h2 : ([name] : List String).count name = 1 := by simp
  omega

/-- C1 witness: appending the go-storage heading to a state already holding
that header name. -/
theorem C1_witness :
    ∃ stN, processChild gsH2 { initState with headers := ["go-storage"] } = .ok stN ∧
      stN.headers = ({ initState with headers := ["go-storage"] } : ExtractState).headers
        ++ ["go-storage"] ∧
      stN.headerContentDict =
        setEntry ({ initState with headers := ["go-storage"] } : ExtractState).headerContentDict
          "go-storage" [] ∧
      2 ≤ stN.headers.count "go-storage" :=
  C1_repeated_heading gsH2 { initState with headers := ["go-storage"] } "go-storage"
    (by decide) (by decide) (by decide)

/-- C2, counterexample: a heading child with no anchor child does not abort
the run; extraction succeeds, a section named by the empty string is
registered, and the following list is still processed (its entry lands
under the empty-string section) — refuting the fatal MalformedHeading
abort. -/
theorem C2_counterexample :
    errOf (extractReport c2doc) = none ∧
    (stOf (extractReport c2doc)).headers = [""] ∧
    lookupD (stOf (extractReport c2doc)).headerContentDict "" =
      ["[@alice] opened issue [Bug X](https://github.com/beyondstorage/go-storage/issues/1)"] := by
  refine ⟨rfl, rfl, ?_⟩
  decide

/-- C2, amended: a heading child with no anchor child is handled without
any error: the anchor selection's text is the empty string, which is
appended as a section name, and processing continues with the next child. -/
theorem C2_missing_anchor_continues (c : HNode) (st : ExtractState)
    (hh2 : isTag c "h2" = true)
    (hnoa : childrenFiltered c "a" none = []) :
    processChild c st =
      .ok { st with
            headers := st.headers ++ [""],
            headerContentDict := setEntry st.headerContentDict "" [] } := by
  unfold processChild
  rw [hh2, hnoa]
  rfl

/-- C2 witness: the anchorless heading handled from the initial state. -/
theorem C2_witness :
    processChild emptyH2 initState =
      .ok { initState with
            headers := [""],
            headerContentDict := [("", [])] } :=
  C2_missing_anchor_continues emptyH2 initState (by decide) rfl

/-- C3, counterexample: a list with an extractable non-bot item before any
heading makes the run fail with the runtime index-out-of-range panic (from
`headers[len(headers)-1]` on the empty headers slice), not with a
controlled ListBeforeHeading fatal abort. -/
theorem C3_counterexample :
    errOf (extractReport c3doc) = some RunErr.panicIndexOutOfRange ∧
    errOf (extractReport c3doc) ≠ some (RunErr.fatal "ListBeforeHeading") := by
  refine ⟨rfl, ?_⟩
  decide

/-- C3, amended: when a list node containing (after any leading bot items)
a non-bot, fully-extractable item appears before any heading or other list,
the run terminates with an uncontrolled index-out-of-range panic and
produces no output at all — in particular no contribution entry. -/
theorem C3_list_before_heading_panics (pre : List HNode) (u : HNode) (post : List HNode)
    (bots : List HNode) (li : HNode) (rest2 : List HNode)
    (t t2 lk : String) (a : HNode) (arest : List HNode)
    (hpre : ∀ c ∈ pre, isTag c "h2" = false ∧ isTag c "ul" = false)
    (hu : isTag u "ul" = true)
    (hitems : liItems u = bots ++ li :: rest2)
    (hbots : ∀ b ∈ bots, isBot (liHandle b) = true)
    (hnb : isBot (liHandle li) = false)
    (ht : firstDirectText (hchildren li) = some t)
    (hhref : (selAttr (userSel li) "href").isSome)
    (hisel : issueSel li = a :: arest)
    (ht2 : firstDirectText (hchildren a) = some t2)
    (hlk : selAttr (issueSel li) "href" = some lk) :
    generateReport (pre ++ u :: post) = .error RunErr.panicIndexOutOfRange := by
  have hu2 : isTag u "h2" = false := isTag_ne u "ul" "h2" hu (by decide)
  have hli : processLi li initState = .error RunErr.panicIndexOutOfRange :=
    processLi_headers_nil li initState t t2 lk a arest rfl hnb ht hhref hisel ht2 hlk
  have hstep : processChild u initState = .error RunErr.panicIndexOutOfRange := by
    unfold processChild
    rw [hu2, hu]
    show foldE processLi (liItems u) initState = .error RunErr.panicIndexOutOfRange
    rw [hitems,
      foldE_append_ok processLi bots (li :: rest2) initState initState
        (foldE_bots bots initState hbots)]
    unfold foldE
    rw [hli]
  have hex : extractReport (pre ++ u :: post) = .error RunErr.panicIndexOutOfRange := by
    unfold extractReport
    rw [foldE_append_ok processChild pre (u :: post) initState initState
      (foldE_others pre initState hpre)]
    unfold foldE
    rw [hstep]
  unfold generateReport
  rw [hex]

/-- C3 witness: the one-list document, instantiating the amended claim. -/
theorem C3_witness : generateReport c3doc = .error RunErr.panicIndexOutOfRange :=
  C3_list_before_heading_panics [] (.elem "ul" [] [aliceLi]) [] [] aliceLi []
    " opened issue " "Bug X" "https://github.com/beyondstorage/go-storage/issues/1"
    (.elem "a" [("href", "https://github.com/beyondstorage/go-storage/issues/1")]
      [.text "Bug X"]) []
    (by intro c hc; cases hc) (by decide) rfl (by intro b hb; cases hb) (by decide) rfl
    (by decide) rfl rfl rfl

/-- C4: on a well-formed document, extraction succeeds and the sum of the
four counters equals the number of non-bot list items whose action text
matches at least one classification pattern. -/
theorem C4_counter_sum (children : List HNode) (h : docWF children = true) :
    ∃ st, extractReport children = .ok st ∧ sumCounters st = docMatchCount children := by
  unfold docWF at h
  rw [Bool.and_eq_true] at h
  obtain ⟨st, h1, h2⟩ := extract_counts children initState h.1 (Or.inr h.2)
  refine ⟨st, h1, ?_⟩
  rw [h2]
  simp [sumCounters, initState]

/-- C4 witness: the one-heading, one-item document. -/
theorem C4_witness :
    docWF doc1 = true ∧
    ∃ st, extractReport doc1 = .ok st ∧ sumCounters st = docMatchCount doc1 :=
  ⟨by decide, C4_counter_sum doc1 (by decide)⟩

/-- C5: classification tests the patterns in the exact source order —
opened-PR, then merged/closed-PR, then opened-issue, then closed-issue —
first match wins, exactly one counter changes on a match and none changes
otherwise; in particular "merged pull request" increments prClose and
leaves prOpen unchanged. -/
theorem C5_classification_order (t : String) (st : ExtractState) :
    (regOpenPR t = true → count t st = { st with prOpen := st.prOpen + 1 }) ∧
    (regOpenPR t = false → regClosePR t = true →
      count t st = { st with prClose := st.prClose + 1 }) ∧
    (regOpenPR t = false → regClosePR t = false → regOpenIssue t = true →
      count t st = { st with issueOpen := st.issueOpen + 1 }) ∧
    (regOpenPR t = false → regClosePR t = false → regOpenIssue t = false →
      regCloseIssue t = true → count t st = { st with issueClose := st.issueClose + 1 }) ∧
    (matchesAny t = false → count t st = st) ∧
    count "merged pull request" st = { st with prClose := st.prClose + 1 } := by
  refine ⟨?_, ?_, ?_, ?_, ?_, ?_⟩
  · intro h1
    simp [count, h1]
  · intro h1 h2
    simp [count, h1, h2]
  · intro h1 h2 h3
    simp [count, h1, h2, h3]
  · intro h1 h2 h3 h4
    simp [count, h1, h2, h3, h4]
  · intro h
    unfold matchesAny at h
    simp only [Bool.or_eq_false_iff] at h
    obtain ⟨⟨⟨h1, h2⟩, h3⟩, h4⟩ := h
    simp [count, h1, h2, h3, h4]
  · have h1 : regOpenPR "merged pull request" = false := by decide
    have h2 : regClosePR "merged pull request" = true := by decide
    simp [count, h1, h2]

/-- C5 witness: "merged pull request" increments prClose from the initial
state, and "closed issue" reaches the last pattern. -/
theorem C5_witness :
    count "merged pull request" initState =
      { initState with prClose := initState.prClose + 1 } ∧
    count "closed issue" initState =
      { initState with issueClose := initState.issueClose + 1 } :=
  ⟨(C5_classification_order "merged pull request" initState).2.2.2.2.2,
   (C5_classification_order "closed issue" initState).2.2.2.1
     (by decide) (by decide) (by decide) (by decide)⟩

/-- C6: a list item whose user-mention handle is a bot identifier is
skipped entirely — the state (counters, user registry, all entry lists) is
returned unchanged. -/
theorem C6_bot_skipped (li : HNode) (st : ExtractState)
    (h : isBot (liHandle li) = true) : processLi li st = .ok st :=
  processLi_isBot li st h

/-- C6 witness: the dependabot item from the initial state. -/
theorem C6_witness :
    isBot (liHandle depLi) = true ∧ processLi depLi initState = .ok initState :=
  ⟨by decide, C6_bot_skipped depLi initState (by decide)⟩

/-- C7: after a successful extraction, every entry of every section list
was built from a handle that is registered in `userDict`, whose
reference-link line therefore appears among the formatted user lines. -/
theorem C7_entries_have_registered_handles (children : List HNode) (st : ExtractState)
    (h : extractReport children = .ok st) :
    ∀ hdr, ∀ e ∈ lookupD st.headerContentDict hdr,
      ∃ handle userText issueTitle issueLink link,
        e = mkEntry handle userText issueTitle issueLink ∧
        alookup st.userDict handle = some link ∧
        ("[" ++ handle ++ "]: " ++ link) ∈ userLines st.userDict := by
  intro hdr e he
  obtain ⟨handle, ua, ub, uc, hee, hs⟩ := extract_invC7 children st h hdr e he
  obtain ⟨link, hlink⟩ := Option.isSome_iff_exists.mp hs
  refine ⟨handle, ua, ub, uc, link, hee, hlink, ?_⟩
  unfold userLines
  exact List.mem_map_of_mem _ (alookup_mem _ _ _ hlink)

/-- C7 witness: the alice entry of the one-item document. -/
theorem C7_witness :
    ∃ handle userText issueTitle issueLink link,
      "[@alice] opened issue [Bug X](https://github.com/beyondstorage/go-storage/issues/1)" =
        mkEntry handle userText issueTitle issueLink ∧
      alookup (stOf (extractReport doc1)).userDict handle = some link ∧
      ("[" ++ handle ++ "]: " ++ link) ∈ userLines (stOf (extractReport doc1)).userDict :=
  C7_entries_have_registered_handles doc1 (stOf (extractReport doc1)) rfl "go-storage"
    "[@alice] opened issue [Bug X](https://github.com/beyondstorage/go-storage/issues/1)"
    (by decide)

/-- C8: the section loop emits exactly the blocks of the sections with a
non-empty entry list, in list order — no heading line and no items for an
empty section, even if it is the only one. -/
theorem C8_empty_sections_skipped (headers : List String)
    (dict : List (String × List String)) :
    formatSections headers dict = specFormatSections headers dict := by
  induction headers with
  | nil => rfl
  | cons h rest ih =>
    rw [specFormatSections_cons]
    unfold formatSections
    cases hd : lookupD dict h with
    | nil => simp [ih]
    | cons x xs => simp [ih]

/-- C9: a non-bot item whose action text matches a pattern but whose issue
anchor has no href is skipped after counting: no entry is appended, the
entry lists are untouched, yet the counter sum has already increased by
one. -/
theorem C9_issue_href_skip_keeps_count (li : HNode) (st st1 : ExtractState)
    (t t2 : String) (a : HNode) (arest : List HNode)
    (hnb : isBot (liHandle li) = false)
    (ht : firstDirectText (hchildren li) = some t)
    (hreg : registerUser (liHandle li) (userSel li) st = some st1)
    (hisel : issueSel li = a :: arest)
    (ht2 : firstDirectText (hchildren a) = some t2)
    (hlk : selAttr (issueSel li) "href" = none)
    (hm : matchesAny t = true) :
    processLi li st = .ok (count t st1) ∧
    (count t st1).headerContentDict = st.headerContentDict ∧
    sumCounters (count t st1) = sumCounters st + 1 := by
  have hlk2 : selAttr (a :: arest) "href" = none := by
    rw [← hisel]
    exact hlk
  refine ⟨?_, ?_, ?_⟩
  · simp only [processLi, hnb, ht, hreg, hisel, ht2, hlk2]
    rfl
  · rw [(count_collections t st1).2.2, (registerUser_spec _ _ _ _ hreg).2.2.2.2.2.1]
  · rw [count_sum, registerUser_sum _ _ _ _ hreg, hm]
    simp

/-- C9 witness: the alice item whose issue anchor lacks an href. -/
theorem C9_witness :
    processLi noHrefIssueLi initState =
      .ok (count " opened issue "
        { initState with userDict := [("@alice", "https://github.com/alice")] }) ∧
    (count " opened issue "
      { initState with userDict := [("@alice", "https://github.com/alice")] }).headerContentDict =
      initState.headerContentDict ∧
    sumCounters (count " opened issue "
      { initState with userDict := [("@alice", "https://github.com/alice")] }) =
      sumCounters initState + 1 :=
  C9_issue_href_skip_keeps_count noHrefIssueLi initState
    { initState with userDict := [("@alice", "https://github.com/alice")] }
    " opened issue " "Bug X" (.elem "a" [] [.text "Bug X"]) []
    (by decide) rfl rfl rfl rfl rfl (by decide)

/-- C10: extraction of a list item can panic instead of skipping or
failing cleanly: the action-text sibling walk dereferences nil when the
item has no direct text-node child, and `Nodes[0]` is out of range when a
non-bot item's child containers hold no anchor. -/
theorem C10_extraction_panics :
    extractReport c10aDoc = .error RunErr.panicNilDeref ∧
    extractReport c10bDoc = .error RunErr.panicIndexOutOfRange :=
  ⟨rfl, rfl⟩

end ReportScript
